import Mathlib

/-!
Verification of the langchainjs excerpt (Runnable batching/streaming,
BaseChatModel generation protocol, MongoDB Atlas vector-search adapter).

Shallow embedding conventions:
* JavaScript arrays become `List`; `arr.map((x, i) => f(i, x))` becomes
  `mapWithIndex f 0 arr`; `arr[i]` in a context where `undefined` is a
  possible value becomes `l[i]?`.
* JavaScript objects whose claims only depend on field lookup are
  association lists `List (String × V)`; object spread `{ ...a, ...b }`
  is the right-biased merge `mergeObj a b` (later fields win on key
  collision; we model lookup semantics, not insertion order of keys).
* Fallible code returns `Except`; a thrown `TypeError` from an
  `undefined` property access is an explicit error value.
* Asynchronous code is modelled by its deterministic data flow: the set
  and per-index pairing of callback notifications is represented as an
  explicit event list; intra-`Promise.all` completion timing is outside
  the model.
-/

/-- Models a JavaScript `arr.map((x, i) => ...)` / indexed `for` loop:
map a function that also receives the element index, starting at `s`. -/
def mapWithIndex (f : Nat → α → β) : Nat → List α → List β
  | _, [] => []
  | s, a :: as => f s a :: mapWithIndex f (s + 1) as

theorem length_mapWithIndex (f : Nat → α → β) (s : Nat) (l : List α) :
    (mapWithIndex f s l).length = l.length := by
  induction l generalizing s with
  | nil => rfl
  | cons a as ih => simp [mapWithIndex, ih]

theorem mapWithIndex_append (f : Nat → α → β) (s : Nat) (l₁ l₂ : List α) :
    mapWithIndex f s (l₁ ++ l₂) =
      mapWithIndex f s l₁ ++ mapWithIndex f (s + l₁.length) l₂ := by
  induction l₁ generalizing s with
  | nil => simp [mapWithIndex]
  | cons a as ih =>
      have h : s + 1 + as.length = s + (as.length + 1) := by omega
      show f s a :: mapWithIndex f (s + 1) (as ++ l₂) =
        f s a :: (mapWithIndex f (s + 1) as ++ mapWithIndex f (s + (as.length + 1)) l₂)
      rw [ih, h]

theorem getElem?_mapWithIndex (f : Nat → α → β) (s : Nat) (l : List α) (j : Nat) :
    (mapWithIndex f s l)[j]? = (l[j]?).map (f (s + j)) := by
  induction l generalizing s j with
  | nil => simp [mapWithIndex]
  | cons a as ih =>
      cases j with
      | zero => simp [mapWithIndex]
      | succ j =>
          simp only [mapWithIndex, List.getElem?_cons_succ, ih]
          have h : s + 1 + j = s + (j + 1) := by omega
          rw [h]

theorem mem_mapWithIndex {f : Nat → α → β} {s : Nat} {l : List α} {b : β}
    (h : b ∈ mapWithIndex f s l) : ∃ i a, b = f i a := by
  induction l generalizing s with
  | nil => simp [mapWithIndex] at h
  | cons x xs ih =>
      simp only [mapWithIndex, List.mem_cons] at h
      rcases h with h | h
      · exact ⟨s, x, h⟩
      · exact ih h

/-! ## JavaScript objects as association lists -/

/-- Does the object have a field named `k`? (models `k in obj`). -/
def hasKey (k : String) : List (String × V) → Bool
  | [] => false
  | p :: rest => if p.1 = k then true else hasKey k rest

/-- Field lookup on an object (first binding wins; objects built by
`mergeObj` keep at most one binding per key reachable by lookup). -/
def lookupField (k : String) : List (String × V) → Option V
  | [] => none
  | p :: rest => if p.1 = k then some p.2 else lookupField k rest

/-- Right-biased object merge: models the JavaScript object spread
`{ ...a, ...b }` at the level of field lookup (fields of `b` override
fields of `a` with the same key). -/
def mergeObj (a b : List (String × V)) : List (String × V) :=
  a.filter (fun p => !hasKey p.1 b) ++ b

theorem hasKey_append (k : String) (l₁ l₂ : List (String × V)) :
    hasKey k (l₁ ++ l₂) = (hasKey k l₁ || hasKey k l₂) := by
  induction l₁ with
  | nil => simp [hasKey]
  | cons p rest ih =>
      by_cases h : p.1 = k <;> simp [hasKey, h, ih]

theorem hasKey_filterNot (k : String) (b c : List (String × V)) :
    hasKey k (b.filter (fun p => !hasKey p.1 c)) = (hasKey k b && !hasKey k c) := by
  induction b with
  | nil => simp [hasKey]
  | cons p rest ih =>
      by_cases hpk : p.1 = k
      · subst hpk
        by_cases hpc : hasKey p.1 c = true
        · simp [List.filter, hpc, hasKey, ih]
        · simp only [Bool.not_eq_true] at hpc
          simp [List.filter, hpc, hasKey]
      · by_cases hpc : hasKey p.1 c = true
        · simp [List.filter, hpc, hasKey, hpk, ih]
        · simp only [Bool.not_eq_true] at hpc
          simp [List.filter, hpc, hasKey, hpk, ih]

theorem hasKey_mergeObj (k : String) (b c : List (String × V)) :
    hasKey k (mergeObj b c) = (hasKey k b || hasKey k c) := by
  unfold mergeObj
  rw [hasKey_append, hasKey_filterNot]
  cases hb : hasKey k b <;> cases hc : hasKey k c <;> simp

theorem mergeObj_assoc (a b c : List (String × V)) :
    mergeObj (mergeObj a b) c = mergeObj a (mergeObj b c) := by
  show (mergeObj a b).filter (fun p => !hasKey p.1 c) ++ c =
    a.filter (fun p => !hasKey p.1 (mergeObj b c)) ++ mergeObj b c
  unfold mergeObj
  rw [List.filter_append, List.append_assoc]
  congr 1
  rw [List.filter_filter]
  apply List.filter_congr
  intro p _
  rw [hasKey_append, hasKey_filterNot]
  cases hb : hasKey p.1 b <;> cases hc : hasKey p.1 c <;> simp

theorem lookupField_append (k : String) (l₁ l₂ : List (String × V)) :
    lookupField k (l₁ ++ l₂) =
      (lookupField k l₁).orElse (fun _ => lookupField k l₂) := by
  induction l₁ with
  | nil => simp [lookupField, Option.orElse]
  | cons p rest ih =>
      by_cases h : p.1 = k <;> simp [lookupField, h, ih, Option.orElse]

theorem hasKey_of_lookupField {k : String} {m : List (String × V)} {v : V}
    (h : lookupField k m = some v) : hasKey k m = true := by
  induction m with
  | nil => simp [lookupField] at h
  | cons p rest ih =>
      by_cases hp : p.1 = k
      · simp [hasKey, hp]
      · simp only [lookupField, hp, if_neg] at h
        simp [hasKey, hp, ih h]

theorem lookupField_filterNot_eq_none {k : String} {b m : List (String × V)}
    (h : hasKey k m = true) :
    lookupField k (b.filter (fun p => !hasKey p.1 m)) = none := by
  induction b with
  | nil => simp [lookupField]
  | cons p rest ih =>
      by_cases hpk : p.1 = k
      · subst hpk
        simp [List.filter, h, ih]
      · by_cases hpm : hasKey p.1 m = true
        · simp [List.filter, hpm, ih]
        · simp only [Bool.not_eq_true] at hpm
          simp [List.filter, hpm, lookupField, hpk, ih]

/-- Later-spread fields win: lookup on `mergeObj a m` prefers `m`. -/
theorem lookupField_mergeObj (k : String) (a m : List (String × V)) :
    lookupField k (mergeObj a m) =
      match lookupField k m with
      | some v => some v
      | none => lookupField k (a.filter (fun p => !hasKey p.1 m)) := by
  unfold mergeObj
  rw [lookupField_append]
  cases hm : lookupField k m with
  | some v =>
      rw [lookupField_filterNot_eq_none (hasKey_of_lookupField hm)]
      simp [Option.orElse]
  | none =>
      cases hb : lookupField k (a.filter (fun p => !hasKey p.1 m)) <;>
        simp [Option.orElse, hb]

/-! ## Runnable (src/unnamed/part_000)

`Runnable.invoke` is abstract; we embed `batch` as a function
parameterised by the `invoke` implementation. The optional `options`
argument of `invoke` becomes `Option γ`, so `configList[i]` (which can
be `undefined` past the end of the array) is passed as `configList[i]?`. -/

/-- Embeds `Runnable._getOptionsList` (part_000 lines 14-27): an array
must have exactly `len` elements, a single configuration is replicated. -/
def getOptionsList (options : Sum γ (List γ)) (len : Nat) : Except String (List γ) :=
  match options with
  | .inr arr =>
      if arr.length ≠ len then
        .error ("Passed \"options\" must be an array with the same length as the inputs, but got "
          ++ toString arr.length ++ " options for " ++ toString len ++ " inputs")
      else .ok arr
  | .inl o => .ok (List.replicate len o)

/-- Embeds the `for (let i = 0; i < inputs.length; i += batchSize)` loop of
`Runnable.batch` (part_000 lines 45-51). Each window is
`inputs.slice(i, i + batchSize)` and is mapped with
`(input, i) => this.invoke(input, configList[i])` — note that the inner
`i` is the *window-local* index (it shadows the loop variable), which is
why `configList` is always indexed from `0` inside every window. The loop
body never runs with `bs = 0` (in the source, `batchSize` is `0` only
when `inputs` is empty); the `bs = 0` guard below exists only for
termination and returns the same `[]` as the source's non-executing loop. -/
def batchGo (inv : α → Option γ → β) (configList : List γ) (bs : Nat)
    (inputs : List α) : List β :=
  match inputs with
  | [] => []
  | a :: as =>
      if _hbs : bs = 0 then []
      else
        mapWithIndex (fun li inp => inv inp configList[li]?) 0 ((a :: as).take bs)
          ++ batchGo inv configList bs ((a :: as).drop bs)
termination_by inputs.length
decreasing_by
  rw [List.length_drop]
  simp only [List.length_cons]
  omega

theorem batchGo_nil (inv : α → Option γ → β) (configList : List γ) (bs : Nat) :
    batchGo inv configList bs [] = [] := by
  unfold batchGo
  rfl

theorem batchGo_cons (inv : α → Option γ → β) (configList : List γ)
    {bs : Nat} (hbs : 0 < bs) (a : α) (as : List α) :
    batchGo inv configList bs (a :: as) =
      mapWithIndex (fun li inp => inv inp configList[li]?) 0 ((a :: as).take bs)
        ++ batchGo inv configList bs ((a :: as).drop bs) := by
  rw [batchGo]
  rw [dif_neg (by omega)]

theorem getElem?_batchGo_aux (inv : α → Option γ → β) (configList : List γ)
    {bs : Nat} (hbs : 0 < bs) :
    ∀ (n : Nat) (inputs : List α), inputs.length ≤ n → ∀ (j : Nat),
      (batchGo inv configList bs inputs)[j]? =
        (inputs[j]?).map (fun x => inv x configList[j % bs]?) := by
  intro n
  induction n with
  | zero =>
      intro inputs hlen j
      have h0 : inputs = [] := List.eq_nil_of_length_eq_zero (by omega)
      subst h0
      simp [batchGo_nil]
  | succ n ih =>
      intro inputs hlen j
      cases inputs with
      | nil => simp [batchGo_nil]
      | cons a as =>
          rw [batchGo_cons inv configList hbs]
          have hlenw : (mapWithIndex (fun li inp => inv inp configList[li]?) 0
              ((a :: as).take bs)).length = min bs (a :: as).length := by
            rw [length_mapWithIndex, List.length_take]
          by_cases hj : j < min bs (a :: as).length
          · rw [List.getElem?_append, if_pos (by rw [hlenw]; omega)]
            rw [getElem?_mapWithIndex]
            have hjbs : j % bs = j := Nat.mod_eq_of_lt (by omega)
            rw [List.getElem?_take_of_lt (by omega), hjbs, Nat.zero_add]
          · rw [List.getElem?_append, if_neg (by rw [hlenw]; omega), hlenw]
            by_cases hcase : bs ≤ (a :: as).length
            · have hmin : min bs (a :: as).length = bs := by omega
              rw [hmin]
              have hdrop : ((a :: as).drop bs).length ≤ n := by
                rw [List.length_drop]
                simp only [List.length_cons] at hlen ⊢
                omega
              rw [ih _ hdrop]
              rw [List.getElem?_drop]
              have h1 : bs + (j - bs) = j := by omega
              have h2 : (j - bs) % bs = j % bs := by
                rw [← Nat.mod_eq_sub_mod (by omega)]
              rw [h1, h2]
            · -- the first window already holds the whole list
              have hmin : min bs (a :: as).length = (a :: as).length := by omega
              have hdropnil : (a :: as).drop bs = [] := by
                apply List.drop_eq_nil_of_le
                omega
              rw [hmin, hdropnil, batchGo_nil]
              have hoob : (a :: as)[j]? = none := by
                apply List.getElem?_eq_none
                omega
              simp [hoob]

theorem getElem?_batchGo (inv : α → Option γ → β) (configList : List γ)
    {bs : Nat} (hbs : 0 < bs) (inputs : List α) (j : Nat) :
    (batchGo inv configList bs inputs)[j]? =
      (inputs[j]?).map (fun x => inv x configList[j % bs]?) :=
  getElem?_batchGo_aux inv configList hbs inputs.length inputs (Nat.le_refl _) j

theorem length_batchGo (inv : α → Option γ → β) (configList : List γ)
    {bs : Nat} (hbs : 0 < bs) (inputs : List α) :
    (batchGo inv configList bs inputs).length = inputs.length := by
  rcases Nat.lt_trichotomy (batchGo inv configList bs inputs).length inputs.length with hlt | heq | hgt
  · have h := getElem?_batchGo inv configList hbs inputs (batchGo inv configList bs inputs).length
    rw [List.getElem?_eq_none (Nat.le_refl _)] at h
    rw [List.getElem?_eq_getElem hlt] at h
    simp at h
  · exact heq
  · have h := getElem?_batchGo inv configList hbs inputs inputs.length
    rw [List.getElem?_eq_none (Nat.le_refl _), List.getElem?_eq_getElem hgt] at h
    simp at h

/-- Embeds `Runnable.batch` (part_000 lines 29-53): resolve the config
list, compute the window size (`maxConcurrency` if given and positive,
otherwise all inputs in one window), then run the windowed loop and
flatten. `emptyCfg` stands for the `{}` defaulted in `options ?? {}`. -/
def batch (inv : α → Option γ → β) (emptyCfg : γ) (inputs : List α)
    (options : Option (Sum γ (List γ))) (maxConcurrency : Option Nat) :
    Except String (List β) :=
  match getOptionsList (options.getD (Sum.inl emptyCfg)) inputs.length with
  | .error e => .error e
  | .ok configList =>
      let batchSize :=
        match maxConcurrency with
        | some m => if 0 < m then m else inputs.length
        | none => inputs.length
      .ok (batchGo inv configList batchSize inputs)

/-! ## BaseChatModel (src/langchain/src/chat_models/base.ts)

The generation primitive `_generate` is abstract; we embed `generate`,
`invoke` and `_streamIterator` as functions parameterised by it.
Callback notifications are represented as an explicit event list:
`handleChatModelStart` is modelled from the spec (the callback manager
lives outside the excerpt) as issuing one start notification and one
run-manager handle per message-list; `handleLLMEnd` / `handleLLMError`
on the handle at index `i` become `llmEnd i` / `llmError i _` events.
Types: `InMsg` is the input message type, `M` the generated message
type, `Out` the per-call `llmOutput` payload, `Err` the error type of
the generation primitive. -/

/-- Models a JavaScript `AbortSignal`: either one supplied by the caller
or one derived from a timeout by `AbortSignal.timeout(ms)`. -/
inductive Signal where
  | user (id : Nat)
  | fromTimeout (ms : Nat)
deriving DecidableEq

/-- Embeds `BaseChatModelCallOptions` (plus the `promptIndex` field that
`generate` adds). Fields whose structure the claims never inspect
(callbacks, metadata) are opaque `Option Nat` payloads. -/
structure ChatCallOptions where
  callbacks : Option Nat := none
  tags : Option (List String) := none
  metadata : Option Nat := none
  stop : Option (List String) := none
  timeout : Option Nat := none
  signal : Option Signal := none
  promptIndex : Option Nat := none
deriving DecidableEq

/-- Embeds `RunnableConfig` (`BaseCallbackConfig`): the cross-cutting
part split off by `_separateRunnableConfigFromCallOptions`. -/
structure RunnableConfigT where
  callbacks : Option Nat
  tags : Option (List String)
  metadata : Option Nat
deriving DecidableEq

/-- Embeds `Runnable._separateRunnableConfigFromCallOptions`
(part_000 lines 71-84): copy callbacks/tags/metadata into the runnable
config and delete them from the call options. -/
def baseSeparateCallOptions (o : ChatCallOptions) : RunnableConfigT × ChatCallOptions :=
  (⟨o.callbacks, o.tags, o.metadata⟩,
    { o with callbacks := none, tags := none, metadata := none })

/-- Embeds `BaseChatModel._separateRunnableConfigFromCallOptions`
(base.ts lines 70-79): after the base split, if the call options have a
truthy `timeout` (`0` is falsy in JavaScript) and no `signal`, set
`signal` to `AbortSignal.timeout(timeout)`. -/
def chatSeparateCallOptions (o : ChatCallOptions) : RunnableConfigT × ChatCallOptions :=
  let (runnableConfig, callOptions) := baseSeparateCallOptions o
  let callOptions :=
    match callOptions.timeout, callOptions.signal with
    | some t, none =>
        if t ≠ 0 then { callOptions with signal := some (Signal.fromTimeout t) }
        else callOptions
    | _, _ => callOptions
  (runnableConfig, callOptions)

/-- Embeds the option normalisation at the top of `generate`
(base.ts lines 180-186): a string array becomes `{ stop: options }`,
`undefined` becomes `{}`. -/
def parseOptions : Option (Sum (List String) ChatCallOptions) → ChatCallOptions
  | some (.inl stops) => { stop := some stops }
  | some (.inr o) => o
  | none => {}

/-- Embeds the options object `{ ...parsedOptions, promptIndex: i }` that
`generate` passes to `_generate` (base.ts line 216). Note that this
spreads `parsedOptions` — the options as parsed, *before*
`_separateRunnableConfigFromCallOptions` ran — so it contains the
original callbacks/tags/metadata and the original `signal` field, not
the timeout-derived signal stored in the separated `callOptions` (which
flows only into the `extra` payload given to the callback manager). -/
def generateSentOptions (parsedOptions : ChatCallOptions) (i : Nat) : ChatCallOptions :=
  { parsedOptions with promptIndex := some i }

/-- Embeds `ChatGeneration` as far as the excerpt inspects it: the
generated message (the `text` field and generation metadata are carried
opaquely by concrete backends and never read by the embedded code). -/
structure ChatGenerationT (M : Type) where
  message : M
deriving DecidableEq

/-- Embeds `ChatResult`: what the generation primitive returns for one
message-list. -/
structure ChatResultT (M Out : Type) where
  generations : List (ChatGenerationT M)
  llmOutput : Option Out := none
deriving DecidableEq

/-- Embeds `LLMResult`: the combined output of `generate`. The
non-enumerable `RUN_KEY` property (run ids for tracing) is outside the
model. -/
structure LLMResultT (M Out : Type) where
  generations : List (List (ChatGenerationT M))
  llmOutput : Option Out := none
deriving DecidableEq

/-- Lifecycle notifications delivered to the run-manager handles, tagged
with the handle's index: `start i` models the start notification for
message-list `i` issued by `handleChatModelStart`, `llmEnd i` a
`handleLLMEnd` on handle `i`, `llmError i e` a `handleLLMError e` on
handle `i`. -/
inductive LlmEvent (Err : Type) where
  | start (i : Nat)
  | llmEnd (i : Nat)
  | llmError (i : Nat) (reason : Err)
deriving DecidableEq

/-- Boolean test for `Except.ok` (models a fulfilled promise in the
`Promise.allSettled` result array). -/
def isOkE : Except ε α → Bool
  | .ok _ => true
  | .error _ => false

/-- The reason of the first rejected promise, if any: with immediately
resolving callback handlers, `Promise.all` over the per-index handlers
rejects with the lowest-index rejection (base.ts lines 224-240). -/
def firstError : List (Except ε α) → Option ε
  | [] => none
  | .error e :: _ => some e
  | .ok _ :: rest => firstError rest

/-- Embeds the `Promise.allSettled` fan-out of `generate`
(base.ts lines 212-220): `_generate` is called once per message-list
with `{ ...parsedOptions, promptIndex: i }`. -/
def generateResults (gen : List InMsg → ChatCallOptions → Except Err (ChatResultT M Out))
    (parsedOptions : ChatCallOptions) (messages : List (List InMsg)) :
    List (Except Err (ChatResultT M Out)) :=
  mapWithIndex (fun i ml => gen ml (generateSentOptions parsedOptions i)) 0 messages

/-- Modelled from the spec: `handleChatModelStart` (callback manager,
outside the excerpt) notifies "that a chat-model run is starting for
each input message-list" and returns "one run-manager handle per
message-list" — one `start i` event per list, in index order. -/
def startEvents (messages : List (List InMsg)) : List (LlmEvent Err) :=
  mapWithIndex (fun i _ => LlmEvent.start i) 0 messages

/-- Embeds the result-handling loop of `generate` (base.ts lines
224-240): a fulfilled result at index `i` notifies `handleLLMEnd` on
run-manager `i`, a rejected one notifies `handleLLMError` with its
reason — all branches settle, so every index produces exactly one
notification. -/
def settleEvents (s : Nat) (results : List (Except Err (ChatResultT M Out))) :
    List (LlmEvent Err) :=
  mapWithIndex (fun i r =>
    match r with
    | .ok _ => LlmEvent.llmEnd i
    | .error e => LlmEvent.llmError i e) s results

/-- Embeds the overall outcome of `generate` (base.ts lines 222-254):
if any result was rejected, `generate` rejects with the first rejection
reason (see `firstError`); otherwise the per-list generations and
llm-outputs are collected in index order and, when at least one output
slot exists, merged by the subclass-provided `_combineLLMOutput`
(`combine`). -/
def generateOutcome (combine : List (Option Out) → Option Out)
    (results : List (Except Err (ChatResultT M Out))) :
    Except Err (LLMResultT M Out) :=
  match firstError results with
  | some e => .error e
  | none =>
      let generations := results.map (fun r =>
        match r with
        | .ok c => c.generations
        | .error _ => [])
      let llmOutputs := results.map (fun r =>
        match r with
        | .ok c => c.llmOutput
        | .error _ => none)
      .ok { generations := generations,
            llmOutput := if llmOutputs.isEmpty then none else combine llmOutputs }

/-- Embeds `BaseChatModel.generate` (base.ts lines 175-255),
parameterised by the abstract `_generate` (`gen`) and
`_combineLLMOutput` (`combine`). Returns the overall outcome together
with the list of lifecycle notifications issued (start notifications,
then one settle notification per message-list — the settle
notifications are issued whether or not the overall call fails). The
separated `callOptions` of line 189 flow only into the callback
manager's `extra` payload, which carries no information the claims
inspect; what `_generate` actually receives is `generateSentOptions`. -/
def generate (gen : List InMsg → ChatCallOptions → Except Err (ChatResultT M Out))
    (combine : List (Option Out) → Option Out)
    (messages : List (List InMsg))
    (options : Option (Sum (List String) ChatCallOptions)) :
    Except Err (LLMResultT M Out) × List (LlmEvent Err) :=
  let parsedOptions := parseOptions options
  let results := generateResults gen parsedOptions messages
  (generateOutcome combine results, startEvents messages ++ settleEvents 0 results)

/-! ### Event counting -/

/-- Is this the start notification for message-list `i`? -/
def isStartFor (i : Nat) : LlmEvent Err → Bool
  | .start j => j == i
  | _ => false

/-- Is this the end notification for message-list `i`? -/
def isEndFor (i : Nat) : LlmEvent Err → Bool
  | .llmEnd j => j == i
  | _ => false

/-- Is this an end-or-error notification for message-list `i`? -/
def isSettleFor (i : Nat) : LlmEvent Err → Bool
  | .llmEnd j => j == i
  | .llmError j _ => j == i
  | _ => false

/-- Is this any error notification? -/
def isErrorEvent : LlmEvent Err → Bool
  | .llmError _ _ => true
  | _ => false

theorem countP_isStartFor_startEvents (messages : List (List InMsg)) (j : Nat) :
    ((startEvents messages : List (LlmEvent Err))).countP (isStartFor j) =
      if j < messages.length then 1 else 0 := by
  unfold startEvents
  suffices h : ∀ (s : Nat),
      (mapWithIndex (fun i (_ : List InMsg) => (LlmEvent.start i : LlmEvent Err)) s
        messages).countP (isStartFor j) = if s ≤ j ∧ j < s + messages.length then 1 else 0 by
    rw [h 0]
    congr 1
    simp only [eq_iff_iff]
    omega
  induction messages with
  | nil =>
      intro s
      show List.countP _ [] = _
      rw [List.countP_nil, if_neg (by simp only [List.length_nil]; omega)]
  | cons m ms ih =>
      intro s
      show (((LlmEvent.start s : LlmEvent Err)) :: mapWithIndex _ (s + 1) ms).countP _ = _
      rw [List.countP_cons, ih (s + 1)]
      simp only [List.length_cons]
      by_cases hsj : s = j
      · subst hsj
        have hm : isStartFor s ((LlmEvent.start s : LlmEvent Err)) = true := by simp [isStartFor]
        rw [hm, if_pos rfl, if_neg (show ¬(s + 1 ≤ s ∧ s < s + 1 + ms.length) by omega),
          if_pos (show s ≤ s ∧ s < s + (ms.length + 1) by omega)]
      · have hm : isStartFor j ((LlmEvent.start s : LlmEvent Err)) = false := by
          simp [isStartFor]
          omega
        rw [hm, if_neg (show ¬(false = true) by simp)]
        split_ifs <;> omega

theorem countP_startEvents_of_not_start {p : LlmEvent Err → Bool}
    (hp : ∀ i, p (LlmEvent.start i) = false) (messages : List (List InMsg)) :
    ((startEvents messages : List (LlmEvent Err))).countP p = 0 := by
  rw [List.countP_eq_zero]
  intro e he
  obtain ⟨i, a, rfl⟩ := mem_mapWithIndex he
  simp [hp i]

/-- With every result fulfilled, the settle pass issues exactly the end
notifications, in index order. -/
theorem settleEvents_all_ok {results : List (Except Err (ChatResultT M Out))}
    (h : ∀ r ∈ results, isOkE r = true) (s : Nat) :
    settleEvents s results =
      mapWithIndex (fun i _ => (LlmEvent.llmEnd i : LlmEvent Err)) s results := by
  induction results generalizing s with
  | nil => rfl
  | cons r rest ih =>
      have hr := h r (List.mem_cons_self r rest)
      cases r with
      | error e => simp [isOkE] at hr
      | ok c =>
          show LlmEvent.llmEnd s :: settleEvents (s + 1) rest = _
          rw [ih (fun x hx => h x (List.mem_cons_of_mem _ hx))]
          rfl

theorem countP_isEndFor_endEvents (results : List (Except Err (ChatResultT M Out)))
    (j : Nat) :
    ∀ (s : Nat),
      (mapWithIndex (fun i _ => (LlmEvent.llmEnd i : LlmEvent Err)) s results).countP
        (isEndFor j) = if s ≤ j ∧ j < s + results.length then 1 else 0 := by
  induction results with
  | nil =>
      intro s
      show List.countP _ [] = _
      rw [List.countP_nil, if_neg (by simp only [List.length_nil]; omega)]
  | cons r rest ih =>
      intro s
      show (((LlmEvent.llmEnd s : LlmEvent Err)) :: mapWithIndex _ (s + 1) rest).countP _ = _
      rw [List.countP_cons, ih (s + 1)]
      simp only [List.length_cons]
      by_cases hsj : s = j
      · subst hsj
        have hm : isEndFor s ((LlmEvent.llmEnd s : LlmEvent Err)) = true := by simp [isEndFor]
        rw [hm, if_pos rfl, if_neg (show ¬(s + 1 ≤ s ∧ s < s + 1 + rest.length) by omega),
          if_pos (show s ≤ s ∧ s < s + (rest.length + 1) by omega)]
      · have hm : isEndFor j ((LlmEvent.llmEnd s : LlmEvent Err)) = false := by
          simp [isEndFor]
          omega
        rw [hm, if_neg (show ¬(false = true) by simp)]
        split_ifs <;> omega

theorem countP_isSettleFor_endEvents (results : List (Except Err (ChatResultT M Out)))
    (j : Nat) :
    ∀ (s : Nat),
      (mapWithIndex (fun i _ => (LlmEvent.llmEnd i : LlmEvent Err)) s results).countP
        (isSettleFor j) = if s ≤ j ∧ j < s + results.length then 1 else 0 := by
  induction results with
  | nil =>
      intro s
      show List.countP _ [] = _
      rw [List.countP_nil, if_neg (by simp only [List.length_nil]; omega)]
  | cons r rest ih =>
      intro s
      show (((LlmEvent.llmEnd s : LlmEvent Err)) :: mapWithIndex _ (s + 1) rest).countP _ = _
      rw [List.countP_cons, ih (s + 1)]
      simp only [List.length_cons]
      by_cases hsj : s = j
      · subst hsj
        have hm : isSettleFor s ((LlmEvent.llmEnd s : LlmEvent Err)) = true := by
          simp [isSettleFor]
        rw [hm, if_pos rfl, if_neg (show ¬(s + 1 ≤ s ∧ s < s + 1 + rest.length) by omega),
          if_pos (show s ≤ s ∧ s < s + (rest.length + 1) by omega)]
      · have hm : isSettleFor j ((LlmEvent.llmEnd s : LlmEvent Err)) = false := by
          simp [isSettleFor]
          omega
        rw [hm, if_neg (show ¬(false = true) by simp)]
        split_ifs <;> omega

theorem countP_endEvents_of_not_end {p : LlmEvent Err → Bool}
    (hp : ∀ i, p (LlmEvent.llmEnd i) = false)
    (results : List (Except Err (ChatResultT M Out))) (s : Nat) :
    (mapWithIndex (fun i _ => (LlmEvent.llmEnd i : LlmEvent Err)) s results).countP p = 0 := by
  rw [List.countP_eq_zero]
  intro e he
  obtain ⟨i, a, rfl⟩ := mem_mapWithIndex he
  simp [hp i]

theorem firstError_eq_none {results : List (Except ε α)}
    (h : ∀ r ∈ results, isOkE r = true) : firstError results = none := by
  induction results with
  | nil => rfl
  | cons r rest ih =>
      cases r with
      | error e =>
          have := h _ (List.mem_cons_self _ rest)
          simp [isOkE] at this
      | ok a =>
          show firstError rest = none
          exact ih (fun x hx => h x (List.mem_cons_of_mem _ hx))

theorem all_ok_of_firstError_eq_none {results : List (Except ε α)}
    (h : firstError results = none) : ∀ r ∈ results, isOkE r = true := by
  induction results with
  | nil => intro r hr; simp at hr
  | cons r rest ih =>
      cases r with
      | error e => simp [firstError] at h
      | ok a =>
          intro x hx
          rcases List.mem_cons.mp hx with rfl | hx
          · rfl
          · exact ih h x hx

/-- Is this any start notification? -/
def isStartEvent : LlmEvent Err → Bool
  | .start _ => true
  | _ => false

/-- Is this any end notification? -/
def isEndEvent : LlmEvent Err → Bool
  | .llmEnd _ => true
  | _ => false

theorem generate_events_eq
    (gen : List InMsg → ChatCallOptions → Except Err (ChatResultT M Out))
    (combine : List (Option Out) → Option Out)
    (messages : List (List InMsg))
    (options : Option (Sum (List String) ChatCallOptions)) :
    (generate gen combine messages options).2 =
      startEvents messages ++
        settleEvents 0 (generateResults gen (parseOptions options) messages) := rfl

theorem firstError_of_generate_ok
    {gen : List InMsg → ChatCallOptions → Except Err (ChatResultT M Out)}
    {combine : List (Option Out) → Option Out}
    {messages : List (List InMsg)}
    {options : Option (Sum (List String) ChatCallOptions)}
    (h : isOkE (generate gen combine messages options).1 = true) :
    firstError (generateResults gen (parseOptions options) messages) = none := by
  cases hfe : firstError (generateResults gen (parseOptions options) messages) with
  | none => rfl
  | some e =>
      have h2 : (generate gen combine messages options).1 = Except.error e := by
        show generateOutcome combine (generateResults gen (parseOptions options) messages) = _
        unfold generateOutcome
        rw [hfe]
      rw [h2] at h
      simp [isOkE] at h

theorem length_generateResults
    (gen : List InMsg → ChatCallOptions → Except Err (ChatResultT M Out))
    (parsedOptions : ChatCallOptions) (messages : List (List InMsg)) :
    (generateResults gen parsedOptions messages).length = messages.length :=
  length_mapWithIndex _ _ _

/-- C1: for every successful `generate` call over N message-lists,
exactly N start notifications are issued (one run-manager handle per
message-list, so exactly one `start i` for each `i < N`) and exactly N
end notifications occur, with the end notification for message-list `i`
delivered to the run-manager handle at index `i` (exactly one
`llmEnd i` for each `i < N`), no error notification occurs, and no
index receives more than one end-or-error notification. -/
theorem generate_success_notification_pairing
    (gen : List InMsg → ChatCallOptions → Except Err (ChatResultT M Out))
    (combine : List (Option Out) → Option Out)
    (messages : List (List InMsg))
    (options : Option (Sum (List String) ChatCallOptions))
    (h : isOkE (generate gen combine messages options).1 = true) :
    ((generate gen combine messages options).2.countP isStartEvent = messages.length ∧
      (generate gen combine messages options).2.countP isEndEvent = messages.length ∧
      (generate gen combine messages options).2.countP isErrorEvent = 0) ∧
    (∀ i < messages.length,
      (generate gen combine messages options).2.countP (isStartFor i) = 1 ∧
      (generate gen combine messages options).2.countP (isEndFor i) = 1) ∧
    (∀ i, (generate gen combine messages options).2.countP (isSettleFor i) ≤ 1) := by
  have hok := all_ok_of_firstError_eq_none (firstError_of_generate_ok h)
  have hev := generate_events_eq gen combine messages options
  have hsettle := settleEvents_all_ok hok 0
  rw [hev, hsettle]
  have hlen := length_generateResults gen (parseOptions options) messages
  constructor
  · refine ⟨?_, ?_, ?_⟩
    · rw [List.countP_append]
      rw [countP_endEvents_of_not_end (fun i => rfl)]
      have hall : ((startEvents messages : List (LlmEvent Err))).countP isStartEvent =
          ((startEvents messages : List (LlmEvent Err))).length := by
        rw [List.countP_eq_length]
        intro e he
        obtain ⟨i, a, rfl⟩ := mem_mapWithIndex he
        rfl
      rw [hall]
      unfold startEvents
      rw [length_mapWithIndex]
      omega
    · rw [List.countP_append]
      rw [countP_startEvents_of_not_start (fun i => rfl)]
      have hall : (mapWithIndex (fun i _ => (LlmEvent.llmEnd i : LlmEvent Err)) 0
          (generateResults gen (parseOptions options) messages)).countP isEndEvent =
          (mapWithIndex (fun i _ => (LlmEvent.llmEnd i : LlmEvent Err)) 0
            (generateResults gen (parseOptions options) messages)).length := by
        rw [List.countP_eq_length]
        intro e he
        obtain ⟨i, a, rfl⟩ := mem_mapWithIndex he
        rfl
      rw [hall, length_mapWithIndex, hlen]
      omega
    · rw [List.countP_append]
      rw [countP_startEvents_of_not_start (fun i => rfl),
        countP_endEvents_of_not_end (fun i => rfl)]
  · constructor
    · intro i hi
      constructor
      · rw [List.countP_append, countP_isStartFor_startEvents,
          countP_endEvents_of_not_end (fun j => rfl), if_pos hi]
      · rw [List.countP_append, countP_startEvents_of_not_start (fun j => rfl),
          countP_isEndFor_endEvents _ _ 0, hlen, if_pos (by omega)]
    · intro i
      rw [List.countP_append, countP_startEvents_of_not_start (fun j => rfl),
        countP_isSettleFor_endEvents _ _ 0]
      split_ifs <;> omega

/-- Witness for C1 at a concrete two-list call with an always-succeeding
generation primitive. -/
theorem generate_success_notification_pairing_witness :
    isOkE (generate
        (fun (_ : List Nat) (_ : ChatCallOptions) =>
          (Except.ok { generations := [⟨5⟩] } : Except Nat (ChatResultT Nat Nat)))
        (fun _ => (none : Option Nat)) [[1], [2]] none).1 = true ∧
    ((generate
        (fun (_ : List Nat) (_ : ChatCallOptions) =>
          (Except.ok { generations := [⟨5⟩] } : Except Nat (ChatResultT Nat Nat)))
        (fun _ => (none : Option Nat)) [[1], [2]] none).2.countP isStartEvent = 2 ∧
      (generate
        (fun (_ : List Nat) (_ : ChatCallOptions) =>
          (Except.ok { generations := [⟨5⟩] } : Except Nat (ChatResultT Nat Nat)))
        (fun _ => (none : Option Nat)) [[1], [2]] none).2.countP isEndEvent = 2 ∧
      (generate
        (fun (_ : List Nat) (_ : ChatCallOptions) =>
          (Except.ok { generations := [⟨5⟩] } : Except Nat (ChatResultT Nat Nat)))
        (fun _ => (none : Option Nat)) [[1], [2]] none).2.countP isErrorEvent = 0) := by
  have h : isOkE (generate
      (fun (_ : List Nat) (_ : ChatCallOptions) =>
        (Except.ok { generations := [⟨5⟩] } : Except Nat (ChatResultT Nat Nat)))
      (fun _ => (none : Option Nat)) [[1], [2]] none).1 = true := rfl
  refine ⟨h, ?_⟩
  have := generate_success_notification_pairing
    (fun (_ : List Nat) (_ : ChatCallOptions) =>
      (Except.ok { generations := [⟨5⟩] } : Except Nat (ChatResultT Nat Nat)))
    (fun _ => (none : Option Nat)) [[1], [2]] none h
  exact this.1

theorem firstError_append_error {pre : List (Except ε α)}
    (hpre : ∀ r ∈ pre, isOkE r = true) (e : ε) (post : List (Except ε α)) :
    firstError (pre ++ Except.error e :: post) = some e := by
  induction pre with
  | nil => rfl
  | cons r rest ih =>
      cases r with
      | error e2 =>
          have := hpre _ (List.mem_cons_self _ rest)
          simp [isOkE] at this
      | ok a =>
          show firstError (rest ++ Except.error e :: post) = some e
          exact ih (fun x hx => hpre x (List.mem_cons_of_mem _ hx))

theorem settleEvents_append (s : Nat) (l₁ l₂ : List (Except Err (ChatResultT M Out))) :
    settleEvents s (l₁ ++ l₂) =
      settleEvents s l₁ ++ settleEvents (s + l₁.length) l₂ := by
  unfold settleEvents
  rw [mapWithIndex_append]

/-- C2: if the generation primitive fails for exactly one message-list
(the one at index `pre.length`, with reason `e`) and succeeds for all
the others, then the overall `generate` call fails with that reason,
while every successful list still receives exactly one end notification
on its own run-manager handle, the failing list receives exactly one
error notification carrying the reason (and no end notification), and
exactly one error notification occurs in total — no fail-fast
cancellation of sibling branches. -/
theorem generate_single_failure_settles_all [DecidableEq Err]
    (gen : List InMsg → ChatCallOptions → Except Err (ChatResultT M Out))
    (combine : List (Option Out) → Option Out)
    (messages : List (List InMsg))
    (options : Option (Sum (List String) ChatCallOptions))
    (pre post : List (Except Err (ChatResultT M Out))) (e : Err)
    (hdec : generateResults gen (parseOptions options) messages =
      pre ++ Except.error e :: post)
    (hpre : ∀ r ∈ pre, isOkE r = true)
    (hpost : ∀ r ∈ post, isOkE r = true) :
    (generate gen combine messages options).1 = Except.error e ∧
    (generate gen combine messages options).2.countP
      (fun ev => ev = LlmEvent.llmError pre.length e) = 1 ∧
    (generate gen combine messages options).2.countP (isEndFor pre.length) = 0 ∧
    (∀ j < messages.length, j ≠ pre.length →
      (generate gen combine messages options).2.countP (isEndFor j) = 1) ∧
    (generate gen combine messages options).2.countP isErrorEvent = 1 := by
  have hN : messages.length = pre.length + 1 + post.length := by
    have := length_generateResults gen (parseOptions options) messages
    rw [hdec] at this
    simp at this
    omega
  have hev := generate_events_eq gen combine messages options
  have hevents : (generate gen combine messages options).2 =
      startEvents messages ++
        (mapWithIndex (fun i _ => (LlmEvent.llmEnd i : LlmEvent Err)) 0 pre ++
          (LlmEvent.llmError pre.length e ::
            mapWithIndex (fun i _ => (LlmEvent.llmEnd i : LlmEvent Err))
              (pre.length + 1) post)) := by
    have hcons : ∀ (s : Nat), settleEvents s (Except.error e :: post) =
        LlmEvent.llmError s e :: settleEvents (s + 1) post := fun s => rfl
    rw [hev, hdec, settleEvents_append, settleEvents_all_ok hpre, hcons,
      settleEvents_all_ok hpost]
    simp only [Nat.zero_add]
  refine ⟨?_, ?_, ?_, ?_, ?_⟩
  · show generateOutcome combine
        (generateResults gen (parseOptions options) messages) = _
    unfold generateOutcome
    rw [hdec, firstError_append_error hpre]
  · rw [hevents]
    rw [List.countP_append, List.countP_append, List.countP_cons]
    rw [countP_startEvents_of_not_start (fun i => by simp),
      countP_endEvents_of_not_end (fun i => by simp),
      countP_endEvents_of_not_end (fun i => by simp)]
    simp
  · rw [hevents]
    rw [List.countP_append, List.countP_append, List.countP_cons]
    rw [countP_startEvents_of_not_start (fun i => rfl),
      countP_isEndFor_endEvents _ _ 0, countP_isEndFor_endEvents _ _ (pre.length + 1)]
    have hfalse : isEndFor pre.length (LlmEvent.llmError pre.length e) =
        false := rfl
    rw [hfalse, if_neg (by omega), if_neg (by omega)]
    simp
  · intro j hj hne
    rw [hevents]
    rw [List.countP_append, List.countP_append, List.countP_cons]
    rw [countP_startEvents_of_not_start (fun i => rfl),
      countP_isEndFor_endEvents _ _ 0, countP_isEndFor_endEvents _ _ (pre.length + 1)]
    have hfalse : isEndFor j (LlmEvent.llmError pre.length e) =
        false := rfl
    rw [hfalse]
    rw [hN] at hj
    rcases Nat.lt_trichotomy j pre.length with hlt | heq | hgt
    · rw [if_pos (by omega), if_neg (by omega)]
      simp
    · exact absurd heq hne
    · rw [if_neg (by omega), if_pos (by omega)]
      simp
  · rw [hevents]
    rw [List.countP_append, List.countP_append, List.countP_cons]
    rw [countP_startEvents_of_not_start (fun i => rfl),
      countP_endEvents_of_not_end (fun i => rfl),
      countP_endEvents_of_not_end (fun i => rfl)]
    simp [isErrorEvent]

/-- Witness for C2 at a concrete two-list call where only the second
list fails (reason `7`). -/
theorem generate_single_failure_settles_all_witness :
    (generateResults
        (fun (_ : List Nat) (o : ChatCallOptions) =>
          (if o.promptIndex = some 1 then Except.error 7
            else Except.ok { generations := [⟨5⟩] } : Except Nat (ChatResultT Nat Nat)))
        (parseOptions none) [[1], [2]] =
      [Except.ok { generations := [⟨5⟩] }] ++ Except.error 7 :: []) ∧
    ((generate
        (fun (_ : List Nat) (o : ChatCallOptions) =>
          (if o.promptIndex = some 1 then Except.error 7
            else Except.ok { generations := [⟨5⟩] } : Except Nat (ChatResultT Nat Nat)))
        (fun _ => (none : Option Nat)) [[1], [2]] none).1 = Except.error 7 ∧
      (generate
        (fun (_ : List Nat) (o : ChatCallOptions) =>
          (if o.promptIndex = some 1 then Except.error 7
            else Except.ok { generations := [⟨5⟩] } : Except Nat (ChatResultT Nat Nat)))
        (fun _ => (none : Option Nat)) [[1], [2]] none).2.countP
          (fun ev => ev = LlmEvent.llmError 1 7) = 1) := by
  have hdec : generateResults
      (fun (_ : List Nat) (o : ChatCallOptions) =>
        (if o.promptIndex = some 1 then Except.error 7
          else Except.ok { generations := [⟨5⟩] } : Except Nat (ChatResultT Nat Nat)))
      (parseOptions none) [[1], [2]] =
      [Except.ok { generations := [⟨5⟩] }] ++ Except.error 7 :: [] := rfl
  have happ := generate_single_failure_settles_all
    (fun (_ : List Nat) (o : ChatCallOptions) =>
      (if o.promptIndex = some 1 then Except.error 7
        else Except.ok { generations := [⟨5⟩] } : Except Nat (ChatResultT Nat Nat)))
    (fun _ => (none : Option Nat)) [[1], [2]] none
    [Except.ok { generations := [⟨5⟩] }] [] 7 hdec
    (by
      intro r hr
      rw [List.mem_singleton] at hr
      subst hr
      rfl)
    (fun r hr => absurd hr (List.not_mem_nil r))
  exact ⟨hdec, happ.1, happ.2.1⟩

/-- C3 (code evaluation): when the call options carry a (truthy) timeout
and no abort signal, `_separateRunnableConfigFromCallOptions` does derive
`signal = AbortSignal.timeout(timeout)` in the separated call options —
but `generate` passes `{ ...parsedOptions, promptIndex: i }` to
`_generate` (base.ts line 216), i.e. the *unseparated* options, whose
`signal` field is still absent. The derived signal never reaches the
generation primitive; it survives only in the `extra` payload handed to
the callback manager. -/
theorem generate_timeout_signal_not_passed
    (o : ChatCallOptions) (t : Nat) (i : Nat)
    (htimeout : o.timeout = some t) (ht : t ≠ 0) (hsig : o.signal = none) :
    (chatSeparateCallOptions o).2.signal = some (Signal.fromTimeout t) ∧
    (generateSentOptions o i).signal = none := by
  constructor
  · unfold chatSeparateCallOptions baseSeparateCallOptions
    simp [htimeout, hsig, ht]
  · unfold generateSentOptions
    simp [hsig]

/-- Witness for C3's code evaluation at `timeout = 1000`. -/
theorem generate_timeout_signal_not_passed_witness :
    (({ timeout := some 1000 } : ChatCallOptions).timeout = some 1000 ∧
      ({ timeout := some 1000 } : ChatCallOptions).signal = none) ∧
    (chatSeparateCallOptions { timeout := some 1000 }).2.signal =
      some (Signal.fromTimeout 1000) ∧
    (generateSentOptions { timeout := some 1000 } 0).signal = none :=
  ⟨⟨rfl, rfl⟩,
    generate_timeout_signal_not_passed { timeout := some 1000 } 1000 0 rfl
      (by decide) rfl⟩

/-- C4 (code evaluation): `batch` with the per-input options array
`[0, 1]`, two inputs and `maxConcurrency = 1` invokes *both* inputs
with options element `0`: the second window re-indexes `configList`
from `0` because the mapping lambda's `i` shadows the loop variable
(part_000 line 48). Under the claim, the second input would have
received options element `1`. -/
theorem batch_option_array_misalignment :
    batch (fun (inp : Nat) (c : Option Nat) => (inp, c)) 0 [10, 20]
        (some (Sum.inr [0, 1])) (some 1) =
      Except.ok [(10, some 0), (20, some 0)] ∧
    (some 0 : Option Nat) ≠ some 1 := by
  constructor
  · simp [batch, getOptionsList, batchGo, mapWithIndex]
  · decide

/-- C5: whenever `batch` succeeds, the output list has the same length
as the input list and the output at index `j` is the result of invoking
the input at index `j` (with whichever options element the code paired
with it) — output order equals input order for every window size. -/
theorem batch_output_aligned_with_input
    (inv : α → Option γ → β) (emptyCfg : γ) (inputs : List α)
    (options : Option (Sum γ (List γ))) (maxConcurrency : Option Nat)
    (l : List β) (h : batch inv emptyCfg inputs options maxConcurrency = .ok l) :
    l.length = inputs.length ∧
    ∀ (j : Nat) (hj : j < inputs.length),
      ∃ c, l[j]? = some (inv (inputs.get ⟨j, hj⟩) c) := by
  unfold batch at h
  split at h
  · simp at h
  · rename_i configList heq
    simp only [Except.ok.injEq] at h
    subst h
    cases inputs with
    | nil =>
        refine ⟨by simp [batchGo_nil], ?_⟩
        intro j hj
        simp at hj
    | cons a as =>
        set bs := (match maxConcurrency with
          | some m => if 0 < m then m else (a :: as).length
          | none => (a :: as).length) with hbsdef
        have hbs : 0 < bs := by
          rw [hbsdef]
          cases maxConcurrency with
          | none => simp
          | some m =>
              by_cases hm : 0 < m
              · simp [hm]
              · simp [hm]
        refine ⟨length_batchGo inv configList hbs (a :: as), ?_⟩
        intro j hj
        refine ⟨configList[j % bs]?, ?_⟩
        rw [getElem?_batchGo inv configList hbs (a :: as) j]
        rw [List.getElem?_eq_getElem hj]
        rfl

/-- Witness for C5: three inputs, shared config, window size 2. -/
theorem batch_output_aligned_with_input_witness :
    (batch (fun (n : Nat) (_ : Option Nat) => n * 2) 0 [1, 2, 3]
        (some (Sum.inl 0)) (some 2) = Except.ok [2, 4, 6]) ∧
    (([2, 4, 6] : List Nat).length = ([1, 2, 3] : List Nat).length ∧
      ∀ (j : Nat) (hj : j < ([1, 2, 3] : List Nat).length),
        ∃ c, ([2, 4, 6] : List Nat)[j]? =
          some ((fun (n : Nat) (_ : Option Nat) => n * 2)
            (([1, 2, 3] : List Nat).get ⟨j, hj⟩) c)) := by
  have h : batch (fun (n : Nat) (_ : Option Nat) => n * 2) 0 [1, 2, 3]
      (some (Sum.inl 0)) (some 2) = Except.ok [2, 4, 6] := by
    simp [batch, getOptionsList, batchGo, mapWithIndex]
  exact ⟨h, batch_output_aligned_with_input _ _ _ _ _ _ h⟩

/-! ## Streaming chunks and `_streamIterator` -/

/-- Modelled from the spec: the message payload of a streaming chunk
(`BaseMessageChunk`, defined in the schema module, which is outside the
excerpt). Per the spec, concatenation "must correctly merge partial
text and partial metadata": contents concatenate, the keyword-argument
metadata objects merge right-biased. -/
structure ChunkMsg where
  content : String
  additionalKwargs : List (String × String)
deriving DecidableEq

/-- Modelled from the spec: `ChatGenerationChunk` (schema module,
outside the excerpt) — "an incremental partial GenerationResult emitted
during streaming": partial text, partial generation metadata and the
partial message. -/
structure ChatGenerationChunk where
  text : String
  generationInfo : List (String × String)
  message : ChunkMsg
deriving DecidableEq

/-- Modelled from the spec: `ChatGenerationChunk.concat` as used by the
fold in `_streamIterator` (base.ts lines 150-154) — "chunks are
associatively combinable into a single GenerationResult (concatenation
must be order-preserving and must correctly merge partial text and
partial metadata)": texts and message contents concatenate in order,
metadata objects merge with the right chunk's fields winning. -/
def ChatGenerationChunk.concat (a b : ChatGenerationChunk) : ChatGenerationChunk :=
  { text := a.text ++ b.text,
    generationInfo := mergeObj a.generationInfo b.generationInfo,
    message := { content := a.message.content ++ b.message.content,
                 additionalKwargs :=
                   mergeObj a.message.additionalKwargs b.message.additionalKwargs } }

/-- Embeds the chunk accumulation of `_streamIterator` (base.ts lines
142-155): `generationChunk` starts unset, takes the first chunk, and
each further chunk is folded in with `concat`. -/
def foldChunks : List ChatGenerationChunk → Option ChatGenerationChunk
  | [] => none
  | c :: cs => some (cs.foldl ChatGenerationChunk.concat c)

/-- C6: chunk combination is associative — combining `c1` with `c2` and
then the result with `c3` gives the same combined generation (text,
metadata and message content and metadata all agree) as combining `c1`
with the combination of `c2` and `c3`; hence folding `[c1, c2, c3]`
left-to-right one at a time equals combining `[c1 + c2]` and then `c3`. -/
theorem chunk_concat_assoc (c1 c2 c3 : ChatGenerationChunk) :
    (c1.concat c2).concat c3 = c1.concat (c2.concat c3) := by
  unfold ChatGenerationChunk.concat
  simp only [ChatGenerationChunk.mk.injEq, ChunkMsg.mk.injEq]
  exact ⟨String.append_assoc _ _ _, mergeObj_assoc _ _ _,
    String.append_assoc _ _ _, mergeObj_assoc _ _ _⟩

/-- The outcome of `invoke` (base.ts lines 81-94): either the message of
the first generation of the first list, a `TypeError` (the JavaScript
crash when `result.generations[0][0]` is `undefined`), or the error the
underlying `generate` rejected with. -/
inductive InvokeOutcome (M Err : Type) where
  | msg (m : M)
  | typeError
  | raised (e : Err)
deriving DecidableEq

/-- Embeds `BaseChatModel.invoke` (base.ts lines 81-94): delegate to
`generatePrompt` (= `generate` on the single converted message-list;
the prompt conversion happens before the embedded code runs, so `invoke`
takes the message list directly) and project out
`result.generations[0][0].message`. Returns the outcome together with
the lifecycle notifications issued inside `generate`. -/
def invoke (gen : List InMsg → ChatCallOptions → Except Err (ChatResultT M Out))
    (combine : List (Option Out) → Option Out)
    (messages : List InMsg) (options : Option ChatCallOptions) :
    InvokeOutcome M Err × List (LlmEvent Err) :=
  let (res, events) := generate gen combine [messages] (options.map Sum.inr)
  (match res with
   | .error e => .raised e
   | .ok r =>
      match r.generations with
      | (g :: _) :: _ => .msg g.message
      | _ => .typeError,
   events)

/-- How a run of the default `_streamIterator` ends: either normally, or
rethrowing a producer error, or with the `TypeError` that `invoke` can
raise. -/
inductive StreamFailure (Err : Type) where
  | typeError
  | raised (e : Err)
deriving DecidableEq

/-- The observable behaviour of one `_streamIterator` run: the messages
yielded to the caller in order, the combined chunk passed to
`handleLLMEnd` by the streaming branch (`none` in the fallback branch,
which delegates all callbacks to `invoke`), the terminal failure if any,
and the lifecycle notifications issued. -/
structure StreamRun (Err : Type) where
  yielded : List ChunkMsg
  combined : Option ChatGenerationChunk
  failure : Option (StreamFailure Err)
  events : List (LlmEvent Err)
deriving DecidableEq

/-- Embeds `BaseChatModel._streamIterator` (base.ts lines 105-173) for a
model whose generated messages are chunk messages. The subclass check
`this._streamResponseChunks === BaseChatModel.prototype._streamResponseChunks`
becomes the `Option` on the chunk producer `override`: with no override
the iterator yields the single result of `this.invoke(input, options)`
(lifecycle notifications happen only inside `invoke`); with an override
it separates the options itself (passing the separated `callOptions`,
including a timeout-derived signal, to the producer), issues the start
notification for its single message-list, yields each produced chunk's
message, folds the chunks with `concat`, and closes the run with an
error notification (rethrowing) or an end notification. The producer is
modelled as returning the chunks it yields plus an optional error thrown
after them. -/
def streamIterator
    (override : Option (List InMsg → ChatCallOptions →
      List ChatGenerationChunk × Option Err))
    (gen : List InMsg → ChatCallOptions → Except Err (ChatResultT ChunkMsg Out))
    (combine : List (Option Out) → Option Out)
    (input : List InMsg) (options : Option ChatCallOptions) :
    StreamRun Err :=
  match override with
  | none =>
      let (out, events) := invoke gen combine input options
      match out with
      | .msg m => { yielded := [m], combined := none, failure := none, events := events }
      | .typeError =>
          { yielded := [], combined := none, failure := some .typeError, events := events }
      | .raised e =>
          { yielded := [], combined := none, failure := some (.raised e), events := events }
  | some producer =>
      let (_runnableConfig, callOptions) :=
        chatSeparateCallOptions (options.getD {})
      let (chunks, err) := producer input callOptions
      let yielded := chunks.map (fun c => c.message)
      match err with
      | some e =>
          { yielded := yielded, combined := none, failure := some (.raised e),
            events := [LlmEvent.start 0, LlmEvent.llmError 0 e] }
      | none =>
          { yielded := yielded, combined := foldChunks chunks, failure := none,
            events := [LlmEvent.start 0, LlmEvent.llmEnd 0] }

/-- C7: on a model that has not overridden the chunk-producing
primitive, `stream` yields exactly one element, that element is the
result of `invoke` on the same input and options, and the lifecycle
notifications are exactly the ones `invoke` itself issues (they are not
duplicated by the streaming layer). -/
theorem streamIterator_default_is_singleton_invoke
    (gen : List InMsg → ChatCallOptions → Except Err (ChatResultT ChunkMsg Out))
    (combine : List (Option Out) → Option Out)
    (input : List InMsg) (options : Option ChatCallOptions)
    (m : ChunkMsg) (evs : List (LlmEvent Err))
    (h : invoke gen combine input options = (.msg m, evs)) :
    streamIterator none gen combine input options =
      { yielded := [m], combined := none, failure := none, events := evs } := by
  unfold streamIterator
  rw [h]

/-- Witness for C7 at a concrete single-generation primitive. -/
theorem streamIterator_default_is_singleton_invoke_witness :
    (invoke
        (fun (_ : List Nat) (_ : ChatCallOptions) => (Except.ok
          { generations := [{ message := { content := "hello", additionalKwargs := [] } }] }
            : Except Nat (ChatResultT ChunkMsg Nat)))
        (fun _ => (none : Option Nat)) [1] none =
      (InvokeOutcome.msg { content := "hello", additionalKwargs := [] },
        [LlmEvent.start 0, LlmEvent.llmEnd 0])) ∧
    streamIterator none
        (fun (_ : List Nat) (_ : ChatCallOptions) => (Except.ok
          { generations := [{ message := { content := "hello", additionalKwargs := [] } }] }
            : Except Nat (ChatResultT ChunkMsg Nat)))
        (fun _ => (none : Option Nat)) [1] none =
      { yielded := [{ content := "hello", additionalKwargs := [] }], combined := none,
        failure := none, events := [LlmEvent.start 0, LlmEvent.llmEnd 0] } := by
  have h : invoke
      (fun (_ : List Nat) (_ : ChatCallOptions) => (Except.ok
        { generations := [{ message := { content := "hello", additionalKwargs := [] } }] }
          : Except Nat (ChatResultT ChunkMsg Nat)))
      (fun _ => (none : Option Nat)) [1] none =
      (InvokeOutcome.msg { content := "hello", additionalKwargs := [] },
        [LlmEvent.start 0, LlmEvent.llmEnd 0]) := rfl
  exact ⟨h, streamIterator_default_is_singleton_invoke _ _ _ _ _ _ h⟩

/-! ## MongoDBAtlasVectorSearch (src/langchain/src/vectorstores/mongodb_atlas.ts)

The backing collection is the third-party database driver, outside this
repository: `insertMany` is modelled by returning the list of records
that would be inserted, and `similaritySearchVectorWithScore` is
embedded up to the aggregation pipeline it sends to the driver. -/

/-- Values stored in a MongoDB document, as far as the excerpt builds
them: strings (document text), numbers (metadata) and numeric arrays
(embedding vectors; the claims never compute on the numbers, so they
are `Int`). -/
inductive BsonValue where
  | str (s : String)
  | num (n : Int)
  | vec (v : List Int)
deriving DecidableEq

/-- Embeds `Document` (a page content plus arbitrary metadata object). -/
structure JsDocument where
  pageContent : String
  metadata : List (String × BsonValue)
deriving DecidableEq

/-- Embeds the record literal built by `addVectors` (mongodb_atlas.ts
lines 42-46): `{ [this.textKey]: documents[idx].pageContent,
[this.embeddingKey]: embedding, ...documents[idx].metadata }` — the
metadata is spread last, so its fields override the text and embedding
fields on key collision. -/
def atlasRecord (textKey embeddingKey : String) (embedding : List Int)
    (d : JsDocument) : List (String × BsonValue) :=
  mergeObj [(textKey, BsonValue.str d.pageContent),
            (embeddingKey, BsonValue.vec embedding)] d.metadata

/-- Embeds `MongoDBAtlasVectorSearch.addVectors` (mongodb_atlas.ts lines
41-48): `vectors.map((embedding, idx) => ...)` builds one record per
vector from `documents[idx]`, then `insertMany` stores them. When the
vectors outnumber the documents, `documents[idx].pageContent` is a
property access on `undefined` — a thrown `TypeError`, modelled as
`Except.error ()`, raised before `insertMany` runs, so nothing is
stored. Extra documents beyond the vectors are simply never visited. -/
def addVectors (textKey embeddingKey : String) :
    List (List Int) → List JsDocument →
      Except Unit (List (List (String × BsonValue)))
  | [], _ => .ok []
  | _ :: _, [] => .error ()
  | emb :: vs, d :: ds =>
      (addVectors textKey embeddingKey vs ds).map
        (fun rest => atlasRecord textKey embeddingKey emb d :: rest)

/-- C8 (counterexample): with strictly fewer vectors than documents
(`1` vector, `2` documents) the call does *not* fail: it succeeds and
stores one record built from the first document, silently ignoring the
second — contradicting the claim that any count mismatch fails and
stores nothing. -/
theorem addVectors_fewer_vectors_succeeds :
    addVectors "text" "embedding" [[1, 2]]
        [{ pageContent := "a", metadata := [] },
         { pageContent := "b", metadata := [] }] =
      Except.ok [[("text", BsonValue.str "a"), ("embedding", BsonValue.vec [1, 2])]] ∧
    isOkE (addVectors "text" "embedding" [[1, 2]]
        [{ pageContent := "a", metadata := [] },
         { pageContent := "b", metadata := [] }]) = true := by
  constructor
  · rfl
  · rfl

/-- C8 (amended): when the vectors do not outnumber the documents, the
call succeeds and stores exactly one record per (vector, document) pair,
paired by index (in particular this holds when the counts are equal;
excess documents are ignored); when the vectors outnumber the documents,
the call fails with a `TypeError` and stores nothing. -/
theorem addVectors_stores_one_record_per_pair
    (textKey embeddingKey : String) (vectors : List (List Int))
    (documents : List JsDocument) :
    (vectors.length ≤ documents.length →
      addVectors textKey embeddingKey vectors documents =
        Except.ok (List.zipWith (atlasRecord textKey embeddingKey) vectors documents)) ∧
    (documents.length < vectors.length →
      addVectors textKey embeddingKey vectors documents = Except.error ()) := by
  induction vectors generalizing documents with
  | nil =>
      constructor
      · intro _
        cases documents <;> rfl
      · intro h
        simp at h
  | cons emb vs ih =>
      cases documents with
      | nil =>
          constructor
          · intro h
            simp at h
          · intro _
            rfl
      | cons d ds =>
          constructor
          · intro h
            show (addVectors textKey embeddingKey vs ds).map _ = _
            rw [(ih ds).1 (by simp at h; omega)]
            rfl
          · intro h
            show (addVectors textKey embeddingKey vs ds).map _ = _
            rw [(ih ds).2 (by simp at h; omega)]
            rfl

/-- Witness for C8's amended statement at equal counts. -/
theorem addVectors_stores_one_record_per_pair_witness :
    (([[1]] : List (List Int)).length ≤
      ([{ pageContent := "a", metadata := [("m", BsonValue.num 3)] }] :
        List JsDocument).length) ∧
    addVectors "text" "embedding" [[1]]
        [{ pageContent := "a", metadata := [("m", BsonValue.num 3)] }] =
      Except.ok (List.zipWith (atlasRecord "text" "embedding") [[1]]
        [{ pageContent := "a", metadata := [("m", BsonValue.num 3)] }]) :=
  ⟨by decide,
    (addVectors_stores_one_record_per_pair "text" "embedding" [[1]]
      [{ pageContent := "a", metadata := [("m", BsonValue.num 3)] }]).1 (by decide)⟩

/-- C10: when a document's metadata has a field named like the text key
or the embedding key, the stored record's value for that field is the
metadata value (the spread comes last), not the page content or the
vector. -/
theorem atlasRecord_metadata_overrides_fixed_fields
    (textKey embeddingKey : String) (embedding : List Int) (d : JsDocument)
    (k : String) (v : BsonValue)
    (_hk : k = textKey ∨ k = embeddingKey)
    (hv : lookupField k d.metadata = some v) :
    lookupField k (atlasRecord textKey embeddingKey embedding d) = some v := by
  unfold atlasRecord
  rw [lookupField_mergeObj, hv]

/-- Witness for C10: metadata field named `text` overrides the page
content in the stored record. -/
theorem atlasRecord_metadata_overrides_fixed_fields_witness :
    (("text" = "text" ∨ "text" = "embedding") ∧
      lookupField "text" [("text", BsonValue.str "meta")] = some (BsonValue.str "meta")) ∧
    lookupField "text" (atlasRecord "text" "embedding" [1]
        { pageContent := "page", metadata := [("text", BsonValue.str "meta")] }) =
      some (BsonValue.str "meta") :=
  ⟨⟨Or.inl rfl, by decide⟩,
    atlasRecord_metadata_overrides_fixed_fields "text" "embedding" [1]
      { pageContent := "page", metadata := [("text", BsonValue.str "meta")] }
      "text" (BsonValue.str "meta") (Or.inl rfl) (by decide)⟩

/-- Embeds the `MongoDBAtlasFilter` type (mongodb_atlas.ts lines 13-16):
an optional explicit pre-filter, an optional post-filter pipeline, and
arbitrary further fields (`rest`) from the `& MongoDBDocument`
intersection. -/
structure AtlasFilter where
  preFilter : Option (List (String × BsonValue)) := none
  postFilterPipeline : Option (List (List (String × BsonValue))) := none
  rest : List (String × BsonValue) := []
deriving DecidableEq

/-- One stage of the aggregation pipeline `similaritySearchVectorWithScore`
sends to the driver: the `$search` stage with its `knnBeta` request
(query vector, path, `k`, optional pre-filter), the fixed `$project`
stage that drops the embedding field and surfaces the search score, or a
caller-supplied post-filter stage appended verbatim. -/
inductive PipelineStage where
  | search (index : String) (vector : List Int) (path : String) (k : Int)
      (filter : Option (List (String × BsonValue)))
  | projectScore (embeddingKey : String)
  | post (d : List (String × BsonValue))
deriving DecidableEq

/-- The whole filter object used as a plain document. Only reached when
`preFilter` and `postFilterPipeline` are both absent, so the object's
own fields are exactly `rest`. -/
def filterAsDoc (f : AtlasFilter) : List (String × BsonValue) := f.rest

/-- Embeds the filter dispatch of `similaritySearchVectorWithScore`
(mongodb_atlas.ts lines 69-74): if the filter has a (truthy) `preFilter`
or `postFilterPipeline` field those are taken (the other one possibly
absent); otherwise the whole filter object is the pre-filter. An absent
filter yields neither. -/
def similaritySearchPrePost :
    Option AtlasFilter →
      Option (List (String × BsonValue)) × Option (List (List (String × BsonValue)))
  | some f =>
      if f.preFilter.isSome || f.postFilterPipeline.isSome then
        (f.preFilter, f.postFilterPipeline)
      else (some (filterAsDoc f), none)
  | none => (none, none)

/-- Embeds the pipeline construction of
`MongoDBAtlasVectorSearch.similaritySearchVectorWithScore`
(mongodb_atlas.ts lines 58-96): the `$search` stage with the `knnBeta`
request (`filter` set when a pre-filter was determined), the fixed
`$project` stage, then any post-filter stages pushed at the end. The
driver call `aggregate(pipeline)` and the result-row translation are
outside the excerpt and are not modelled. -/
def similaritySearchPipeline (indexName embeddingKey : String)
    (query : List Int) (k : Int) (filter : Option AtlasFilter) :
    List PipelineStage :=
  PipelineStage.search indexName query embeddingKey k
      (similaritySearchPrePost filter).1 ::
    PipelineStage.projectScore embeddingKey ::
    (match (similaritySearchPrePost filter).2 with
     | some pp => pp.map PipelineStage.post
     | none => [])

/-- C9: if the filter object carries an explicit `preFilter` or
`postFilterPipeline` field, exactly those fields are used — the
`knnBeta` request's filter is the `preFilter` field (possibly absent),
the post-filter stages are appended after the two fixed stages, and the
other fields of the filter do not influence the pipeline; otherwise the
entire filter object becomes the pre-filter of the `knnBeta` request and
no trailing stages are appended. -/
theorem similaritySearchPipeline_filter_dispatch
    (indexName embeddingKey : String) (query : List Int) (k : Int)
    (f : AtlasFilter) :
    (f.preFilter.isSome = true ∨ f.postFilterPipeline.isSome = true →
      (similaritySearchPipeline indexName embeddingKey query k (some f) =
        PipelineStage.search indexName query embeddingKey k f.preFilter ::
          PipelineStage.projectScore embeddingKey ::
          (f.postFilterPipeline.getD []).map PipelineStage.post) ∧
      (∀ (rest₂ : List (String × BsonValue)),
        similaritySearchPipeline indexName embeddingKey query k
          (some { f with rest := rest₂ }) =
        similaritySearchPipeline indexName embeddingKey query k (some f))) ∧
    (f.preFilter = none → f.postFilterPipeline = none →
      similaritySearchPipeline indexName embeddingKey query k (some f) =
        [PipelineStage.search indexName query embeddingKey k (some f.rest),
         PipelineStage.projectScore embeddingKey]) := by
  constructor
  · intro h
    have hcond : (f.preFilter.isSome || f.postFilterPipeline.isSome) = true := by
      rcases h with h | h <;> simp [h]
    have hpp : similaritySearchPrePost (some f) =
        (f.preFilter, f.postFilterPipeline) := by
      show (if f.preFilter.isSome || f.postFilterPipeline.isSome then
        (f.preFilter, f.postFilterPipeline)
        else (some (filterAsDoc f), none)) = _
      rw [if_pos hcond]
    constructor
    · unfold similaritySearchPipeline
      rw [hpp]
      cases f.postFilterPipeline <;> rfl
    · intro rest₂
      have hcond₂ : (({ f with rest := rest₂ } : AtlasFilter).preFilter.isSome ||
          ({ f with rest := rest₂ } : AtlasFilter).postFilterPipeline.isSome) = true :=
        hcond
      have hpp₂ : similaritySearchPrePost (some { f with rest := rest₂ }) =
          (f.preFilter, f.postFilterPipeline) := by
        show (if ({ f with rest := rest₂ } : AtlasFilter).preFilter.isSome ||
            ({ f with rest := rest₂ } : AtlasFilter).postFilterPipeline.isSome then
          (({ f with rest := rest₂ } : AtlasFilter).preFilter,
            ({ f with rest := rest₂ } : AtlasFilter).postFilterPipeline)
          else (some (filterAsDoc { f with rest := rest₂ }), none)) = _
        rw [if_pos hcond₂]
      unfold similaritySearchPipeline
      rw [hpp, hpp₂]
  · intro hpre hpost
    have hpp₃ : similaritySearchPrePost (some f) = (some f.rest, none) := by
      show (if f.preFilter.isSome || f.postFilterPipeline.isSome then
        (f.preFilter, f.postFilterPipeline)
        else (some (filterAsDoc f), none)) = _
      rw [if_neg (by simp [hpre, hpost])]
      rfl
    unfold similaritySearchPipeline
    rw [hpp₃]

/-- Witness for C9 at a filter with explicit pre- and post-filter
fields and an extra unused field. -/
theorem similaritySearchPipeline_filter_dispatch_witness :
    (({ preFilter := some [("a", BsonValue.num 1)],
          postFilterPipeline := some [[("s", BsonValue.num 2)]],
          rest := [("x", BsonValue.num 9)] } : AtlasFilter).preFilter.isSome = true ∨
      ({ preFilter := some [("a", BsonValue.num 1)],
          postFilterPipeline := some [[("s", BsonValue.num 2)]],
          rest := [("x", BsonValue.num 9)] } : AtlasFilter).postFilterPipeline.isSome
        = true) ∧
    similaritySearchPipeline "default" "embedding" [3] 4
        (some { preFilter := some [("a", BsonValue.num 1)],
                postFilterPipeline := some [[("s", BsonValue.num 2)]],
                rest := [("x", BsonValue.num 9)] }) =
      PipelineStage.search "default" [3] "embedding" 4 (some [("a", BsonValue.num 1)]) ::
        PipelineStage.projectScore "embedding" ::
        [PipelineStage.post [("s", BsonValue.num 2)]] :=
  ⟨Or.inl rfl,
    ((similaritySearchPipeline_filter_dispatch "default" "embedding" [3] 4
      { preFilter := some [("a", BsonValue.num 1)],
        postFilterPipeline := some [[("s", BsonValue.num 2)]],
        rest := [("x", BsonValue.num 9)] }).1 (Or.inl rfl)).1⟩
